import Mathlib

/-!
# Trace Context Propagation & Span Lifecycle — verification development

Shallow embedding of the Nitro OpenTelemetry trace-context plugin
(`server/plugins/otel.ts` in the repository): the traceparent header
parsing done in the `request` hook, the `normalizePath` helper together
with its PathReplace configuration, and the four lifecycle hooks
(`request`, `beforeResponse`, `error`, `afterResponse`) as a state
machine over a per-request context holding an optional span.

Strings from the JavaScript source are modelled as `List Char`; the
JavaScript `String.prototype.split('-')` is embedded as `splitOnChar`.
-/

namespace Otel

/-- Embedding of JavaScript `s.split(c)` for a single-character
separator: splitting the empty string gives `[[]]` (JS gives `[""]`),
and separators at the ends or adjacent to each other produce empty
fields, exactly as in JS. -/
def splitOnChar (c : Char) : List Char → List (List Char)
  | [] => [[]]
  | x :: xs =>
    match splitOnChar c xs with
    | [] => [[]]
    | y :: ys => if x = c then [] :: y :: ys else (x :: y) :: ys

/-- Re-serialization: join a list of fields with the separator
character, inverse of `splitOnChar`. -/
def joinWith (c : Char) : List (List Char) → List Char
  | [] => []
  | [x] => x
  | x :: y :: ys => x ++ c :: joinWith c (y :: ys)

/-- The four fields of a traceparent header as the `request` hook
destructures them: `const [, incomingTraceId, parentSpanId, traceFlags]
= parts` (the version field is `parts[0]`). -/
structure TraceParentFields where
  version : List Char
  traceId : List Char
  parentSpanId : List Char
  traceFlags : List Char
  deriving DecidableEq, Repr

/-- The traceparent acceptance logic of the `request` hook, factored as
a function: `none` when the header is missing, when it is the empty
string (falsy, `if (!traceparent) return`), or when
`traceparent.split('-')` does not have exactly 4 parts
(`if (parts.length !== 4) return`); otherwise the four parts. No other
validation is performed by the hook. -/
def extract (header : Option (List Char)) : Option TraceParentFields :=
  match header with
  | none => none
  | some tp =>
    if tp = [] then none
    else
      match splitOnChar '-' tp with
      | [v, t, p, f] => some ⟨v, t, p, f⟩
      | _ => none

/-! ## PathReplace configuration and `normalizePath` -/

/-- The regex metacharacters tested by the configuration code's
character class `[.*+?^${}()|[\]\\]`. -/
def regexMetaChars : List Char :=
  ['.', '*', '+', '?', '^', '$', '{', '}', '(', ')', '|', '[', ']', '\\']

/-- The pattern-classification test of the PathReplace configuration:
`pattern.startsWith('^') || /[.*+?^${}()|[\]\\]/.test(pattern)` — the
pattern is compiled to a `RegExp` exactly when this is `true`,
otherwise it is kept as a literal string. -/
def isRegexPattern (p : List Char) : Bool :=
  (p.head? = some '^') || p.any (fun c => c ∈ regexMetaChars)

/-- Minimal regular-expression syntax, enough to embed the
quantifier-free patterns this plugin is configured with (character
literals, concatenation, alternation). -/
inductive Regex
  | eps
  | char (c : Char)
  | seq (a b : Regex)
  | alt (a b : Regex)
  deriving DecidableEq, Repr

/-- All ways `r` can match a prefix of `s`, as pairs
`(matched, rest)`, in JavaScript backtracking order: an alternation
tries its left branch first, a concatenation backtracks through the
left component's matches in order. The head of this list is the match
the JS engine commits to. -/
def Regex.matchList : Regex → List Char → List (List Char × List Char)
  | .eps, s => [([], s)]
  | .char _, [] => []
  | .char c, x :: xs => if x = c then [([c], xs)] else []
  | .alt a b, s => a.matchList s ++ b.matchList s
  | .seq a b, s =>
    (a.matchList s).flatMap fun m1 =>
      (b.matchList m1.2).map fun m2 => (m1.1 ++ m2.1, m2.2)

/-- `true` when `r` matches starting exactly at the head of `s`. -/
def Regex.matchesHere (r : Regex) (s : List Char) : Bool :=
  !(r.matchList s).isEmpty

/-- `true` when `r` matches starting at some position of `s`
(the search `String.prototype.replace` performs for an unanchored
regex). -/
def Regex.searchIn (r : Regex) : List Char → Bool
  | [] => r.matchesHere []
  | x :: xs => r.matchesHere (x :: xs) || r.searchIn xs

/-- Embedding of `path.replace(re, repl)` for an unanchored regex:
scan left to right, replace the first (leftmost, first-alternative)
match, return the input unchanged when there is no match. The
replacement strings used by this plugin contain no `$` escapes, so the
replacement is inserted literally. -/
def regexReplaceFirst (r : Regex) (repl : List Char) : List Char → List Char
  | [] =>
    match (r.matchList []).head? with
    | some m => repl ++ m.2
    | none => []
  | x :: xs =>
    match (r.matchList (x :: xs)).head? with
    | some m => repl ++ m.2
    | none => x :: regexReplaceFirst r repl xs

/-- Embedding of `path.replace(re, repl)` for a regex whose source
begins with the `^` anchor (written here as the compiled body `r` plus
the anchoring): the regex can only match at position 0. -/
def anchoredRegexReplace (r : Regex) (repl : List Char) (s : List Char) :
    List Char :=
  match (r.matchList s).head? with
  | some m => repl ++ m.2
  | none => s

/-- Embedding of `path.replace(literal, repl)` for a string pattern:
only the first occurrence of the literal substring is replaced; if the
pattern does not occur, the input is returned unchanged. -/
def literalReplaceFirst (pat repl : List Char) : List Char → List Char
  | [] => if pat = [] then repl else []
  | x :: xs =>
    if pat.isPrefixOf (x :: xs) then repl ++ (x :: xs).drop pat.length
    else x :: literalReplaceFirst pat repl xs

/-- `true` when `pat` occurs as a contiguous substring (the positions
`String.prototype.replace` would find for a string pattern). -/
def occursIn (pat : List Char) : List Char → Bool
  | [] => pat.isEmpty
  | x :: xs => pat.isPrefixOf (x :: xs) || occursIn pat xs

/-- A compiled PathReplace pattern: either a `RegExp` (with `anchored`
recording whether its source began with `^`) or a literal string, the
two states of the source's `pathReplacePattern : RegExp | string`. -/
inductive PathPattern
  | regex (anchored : Bool) (r : Regex)
  | literal (pat : List Char)
  deriving Repr

/-- The two module-level PathReplace variables
(`pathReplacePattern`, `pathReplaceReplacement`), each `null` when not
configured. -/
structure OtelConfig where
  pathReplacePattern : Option PathPattern
  pathReplaceReplacement : Option (List Char)

/-- JavaScript falsiness of the `pathReplacePattern` variable:
`null` and the empty string are falsy; a `RegExp` object is always
truthy. -/
def patternFalsy : Option PathPattern → Bool
  | none => true
  | some (.literal []) => true
  | some _ => false

/-- JavaScript falsiness of the `pathReplaceReplacement` variable:
`null` and the empty string are falsy. -/
def replacementFalsy : Option (List Char) → Bool
  | none => true
  | some [] => true
  | some (_ :: _) => false

/-- Embedding of `normalizePath`: return the path unchanged when
either PathReplace variable is falsy
(`if (!pathReplacePattern || !pathReplaceReplacement) return path`),
otherwise apply `path.replace(pattern, replacement)` with regex or
literal semantics according to the compiled pattern. -/
def normalizePath (cfg : OtelConfig) (path : List Char) : List Char :=
  if patternFalsy cfg.pathReplacePattern ||
      replacementFalsy cfg.pathReplaceReplacement then path
  else
    match cfg.pathReplacePattern, cfg.pathReplaceReplacement with
    | some (.regex true r), some repl => anchoredRegexReplace r repl path
    | some (.regex false r), some repl => regexReplaceFirst r repl path
    | some (.literal pat), some repl => literalReplaceFirst pat repl path
    | _, _ => path

/-- Does the configured pattern match the path anywhere — the
condition under which `String.prototype.replace` changes its input. -/
def patternMatchesPath : PathPattern → List Char → Bool
  | .regex true r, s => r.matchesHere s
  | .regex false r, s => r.searchIn s
  | .literal pat, s => occursIn pat s

/-! ## Span model and lifecycle hooks -/

/-- The value of a hex digit, `none` for any other character
(JavaScript `parseInt(_, 16)` accepts both cases). -/
def hexDigitVal (c : Char) : Option Nat :=
  if '0' ≤ c ∧ c ≤ '9' then some (c.toNat - '0'.toNat)
  else if 'a' ≤ c ∧ c ≤ 'f' then some (c.toNat - 'a'.toNat + 10)
  else if 'A' ≤ c ∧ c ≤ 'F' then some (c.toNat - 'A'.toNat + 10)
  else none

/-- Accumulate the maximal leading run of hex digits. -/
def jsParseHexAux : List Char → Nat → Nat
  | [], acc => acc
  | c :: cs, acc =>
    match hexDigitVal c with
    | some d => jsParseHexAux cs (16 * acc + d)
    | none => acc

/-- Embedding of `parseInt(s, 16)` on the flag strings this code feeds
it: the maximal leading run of hex digits is parsed, `none` stands for
`NaN` (no leading hex digit at all). -/
def jsParseHex (s : List Char) : Option Nat :=
  match s with
  | [] => none
  | c :: _ => if (hexDigitVal c).isSome then some (jsParseHexAux s 0) else none

/-- The object literal built by the `request` hook and passed to
`trace.setSpanContext`: `{traceId, spanId, traceFlags, isRemote: true}`. -/
structure RemoteSpanContext where
  traceId : List Char
  spanId : List Char
  traceFlags : Option Nat
  isRemote : Bool
  deriving Repr

/-- `SpanStatusCode` plus the optional message the hooks attach. -/
inductive SpanStatus
  | unset
  | ok
  | error (message : List Char)
  deriving DecidableEq, Repr

/-- Attribute values as the hooks supply them: strings, numbers, or an
absent (`undefined`) header value. -/
inductive AttrVal
  | str (v : List Char)
  | num (v : Nat)
  | missing
  deriving DecidableEq, Repr

/-- An optional request/response header turned into an attribute
value. -/
def optAttr : Option (List Char) → AttrVal
  | some v => .str v
  | none => .missing

/-- The observable state of one SDK span as this plugin drives it:
identity (from the remote parent context), name, kind, accumulated
attributes, status, recorded exceptions, whether `end()` has been
called (the `isEnded()` query), and how many times `end()` was
invoked — each invocation is one finalize event handed to the
exporter. -/
structure SpanData where
  name : List Char
  traceId : List Char
  parentSpanId : List Char
  traceFlags : Option Nat
  kindServer : Bool
  attrs : List (String × AttrVal)
  status : SpanStatus
  exceptions : List (List Char)
  ended : Bool
  endCount : Nat
  deriving DecidableEq, Repr

/-- `span.setAttributes(map)`: merge the given attributes. -/
def setAttributes (m : List (String × AttrVal)) (s : SpanData) : SpanData :=
  { s with attrs := s.attrs ++ m }

/-- `span.setStatus({code, message})`. -/
def setStatus (st : SpanStatus) (s : SpanData) : SpanData :=
  { s with status := st }

/-- `span.recordException(error)`. -/
def recordException (msg : List Char) (s : SpanData) : SpanData :=
  { s with exceptions := s.exceptions ++ [msg] }

/-- `span.end()`: marks the span ended and emits one finalize event;
modelled as a raw emission so that single-finalization is proved of
the hooks' own guards, not assumed of the SDK. -/
def endSpan (s : SpanData) : SpanData :=
  { s with ended := true, endCount := s.endCount + 1 }

/-- Modelled from the spec: the Tracer collaborator's
`startSpan(name, {kind, attributes}, parentContext)`. The SDK itself
is outside this repository; per the spec the remote context is "used
only as the parent for a new span", so the created span carries the
parent context's traceId and starts live with zero finalize events. -/
def startSpan (name : List Char) (remote : RemoteSpanContext)
    (attrs : List (String × AttrVal)) : SpanData :=
  { name := name
    traceId := remote.traceId
    parentSpanId := remote.spanId
    traceFlags := remote.traceFlags
    kindServer := true
    attrs := attrs
    status := .unset
    exceptions := []
    ended := false
    endCount := 0 }

/-- The inbound request data the `request` hook reads from the event. -/
structure RequestInfo where
  traceparent : Option (List Char)
  method : List Char
  path : List Char
  userAgent : Option (List Char)
  clientId : Option (List Char)
  requestTime : List Char

/-- The response data the `beforeResponse` hook reads from
`event.node.res`. -/
structure ResponseInfo where
  statusCode : Nat
  contentType : Option (List Char)
  contentLength : Option (List Char)

/-- The per-request state the hooks act on: `event.context.span`
(absent before the `request` hook runs and after cleanup deletes it),
plus the count of finalize events emitted to the exporter for this
request. -/
structure Sys where
  span : Option SpanData
  finalized : Nat
  deriving DecidableEq, Repr

/-- The state of a request before any hook has run. -/
def initSys : Sys := { span := none, finalized := 0 }

/-- The `request` hook: parse the traceparent header; on any
missing/invalid header return without touching the context; otherwise
build the remote span context, normalize the path, start a SERVER span
named `method + " " + normalizedPath` with the request attributes, and
store it in `event.context.span`. -/
def requestHook (cfg : OtelConfig) (req : RequestInfo) (sys : Sys) : Sys :=
  match extract req.traceparent with
  | none => sys
  | some f =>
    let remote : RemoteSpanContext :=
      { traceId := f.traceId
        spanId := f.parentSpanId
        traceFlags := jsParseHex f.traceFlags
        isRemote := true }
    let normalizedPath := normalizePath cfg req.path
    let span := startSpan (req.method ++ ' ' :: normalizedPath) remote
      [("http.request.method", .str req.method),
       ("url.path", .str req.path),
       ("http.route", .str normalizedPath),
       ("url.scheme", .str "http".data),
       ("http.request.header.x-user-agent", optAttr req.userAgent),
       ("http.request.header.x-request-time", .str req.requestTime),
       ("http.request.header.x-client-id", optAttr req.clientId)]
    { sys with span := some span }

/-- The status-code value the `beforeResponse` hook computes twice:
`event.node.res.statusCode || 200` (a zero status is falsy). -/
def effectiveStatusCode (rc : Nat) : Nat :=
  if rc = 0 then 200 else rc

/-- The attribute map passed to `span.setAttributes` by the
`beforeResponse` hook: status code (`res.statusCode || 200`),
content-type and content-length response headers. -/
def responseAttrs (res : ResponseInfo) : List (String × AttrVal) :=
  [("http.response.status_code", .num (effectiveStatusCode res.statusCode)),
   ("http.response.header.content-type", optAttr res.contentType),
   ("http.response.header.content-length", optAttr res.contentLength)]

/-- The `beforeResponse` hook: no-op when no span is stored or the
span is already ended (`span.isEnded?.()`); otherwise set the three
response attributes, set status ERROR with message `HTTP <code>` when
the status code is ≥ 400 and OK otherwise, and end the span. -/
def beforeResponseHook (res : ResponseInfo) (sys : Sys) : Sys :=
  match sys.span with
  | none => sys
  | some s =>
    if s.ended then sys
    else
      let sc := effectiveStatusCode res.statusCode
      let s1 := setAttributes (responseAttrs res) s
      let s2 :=
        if 400 ≤ sc then
          setStatus (.error ("HTTP ".data ++ (Nat.repr sc).data)) s1
        else setStatus .ok s1
      { span := some (endSpan s2), finalized := sys.finalized + 1 }

/-- The `error` hook: no-op when no span is stored or the span is
already ended; otherwise record the exception, set status ERROR with
the error's message, and end the span. -/
def errorHook (errMsg : List Char) (sys : Sys) : Sys :=
  match sys.span with
  | none => sys
  | some s =>
    if s.ended then sys
    else
      let s1 := recordException errMsg s
      let s2 := setStatus (.error errMsg) s1
      { span := some (endSpan s2), finalized := sys.finalized + 1 }

/-- The `afterResponse` hook: return early when no span is stored;
otherwise end the span if it was not already ended, then delete
`event.context.span`. -/
def afterResponseHook (sys : Sys) : Sys :=
  match sys.span with
  | none => sys
  | some s =>
    if s.ended then { span := none, finalized := sys.finalized }
    else { span := none, finalized := sys.finalized + 1 }

/-- The lifecycle callbacks that can fire after `request`. -/
inductive LifecycleEvent
  | beforeResponse (res : ResponseInfo)
  | onError (msg : List Char)
  | afterResponse

/-- Dispatch one lifecycle callback. -/
def step (sys : Sys) : LifecycleEvent → Sys
  | .beforeResponse res => beforeResponseHook res sys
  | .onError msg => errorHook msg sys
  | .afterResponse => afterResponseHook sys

/-- Run a sequence of lifecycle callbacks in order. -/
def run (sys : Sys) : List LifecycleEvent → Sys
  | [] => sys
  | e :: es => run (step sys e) es

/-! ## Concrete fixtures -/

/-- The traceparent header used throughout the repository's docs and
tests. -/
def header0 : List Char :=
  "00-909345e985cb1d64cab2231a9fd2459d-fa583390dc4a57f0-01".data

/-- The fields `header0` splits into. -/
def fields0 : TraceParentFields :=
  { version := "00".data
    traceId := "909345e985cb1d64cab2231a9fd2459d".data
    parentSpanId := "fa583390dc4a57f0".data
    traceFlags := "01".data }

/-- No PathReplace configured. -/
def cfg0 : OtelConfig :=
  { pathReplacePattern := none, pathReplaceReplacement := none }

/-- A request carrying `header0`, as the demo frontend sends it. -/
def req0 : RequestInfo :=
  { traceparent := some header0
    method := "POST".data
    path := "/api/hash".data
    userAgent := some "Mozilla/5.0".data
    clientId := some "nuxt-demo-client".data
    requestTime := "2026-10-11T00:00:00.000Z".data }

/-- A 200 response with JSON body headers. -/
def res200 : ResponseInfo :=
  { statusCode := 200
    contentType := some "application/json".data
    contentLength := some "42".data }

/-- A 500 response with no response headers set. -/
def res500 : ResponseInfo :=
  { statusCode := 500, contentType := none, contentLength := none }

/-- A live span as the `request` hook creates it for `header0`. -/
def spanA : SpanData :=
  startSpan "POST /api/hash".data
    { traceId := "909345e985cb1d64cab2231a9fd2459d".data
      spanId := "fa583390dc4a57f0".data
      traceFlags := some 1
      isRemote := true } []

/-- A request context holding the live `spanA` with no finalize event
emitted yet. -/
def sysA : Sys := { span := some spanA, finalized := 0 }

/-- The compiled form of `new RegExp("^/(en|de|fr)/")`: the body after
the `^` anchor is `/` then the alternation `en|de|fr` then `/`. -/
def localeRegex : Regex :=
  .seq (.char '/')
    (.seq
      (.alt (.seq (.char 'e') (.char 'n'))
        (.alt (.seq (.char 'd') (.char 'e')) (.seq (.char 'f') (.char 'r'))))
      (.char '/'))

/-- The PathReplace state after configuring
`["^/(en|de|fr)/", "/:locale/"]`. -/
def localeCfg : OtelConfig :=
  { pathReplacePattern := some (.regex true localeRegex)
    pathReplaceReplacement := some "/:locale/".data }

/-! ## Lemmas about splitting and joining -/

theorem splitOnChar_ne_nil (c : Char) (s : List Char) :
    splitOnChar c s ≠ [] := by
  cases s with
  | nil => simp [splitOnChar]
  | cons x xs =>
    simp only [splitOnChar]
    cases h : splitOnChar c xs with
    | nil => simp
    | cons y ys =>
      by_cases hx : x = c <;> simp [hx]

theorem joinWith_splitOnChar (c : Char) (s : List Char) :
    joinWith c (splitOnChar c s) = s := by
  induction s with
  | nil => rfl
  | cons x xs ih =>
    simp only [splitOnChar]
    cases h : splitOnChar c xs with
    | nil => exact absurd h (splitOnChar_ne_nil c xs)
    | cons y ys =>
      rw [h] at ih
      by_cases hx : x = c
      · subst hx
        simp only [if_pos rfl, joinWith]
        rw [ih]
        simp
      · simp only [if_neg hx]
        cases ys with
        | nil => simpa [joinWith] using ih
        | cons z zs => simpa [joinWith] using ih

/-! ## Lemmas about `extract` -/

theorem extract_some_of_split (tp v t p f : List Char) (h0 : tp ≠ [])
    (hs : splitOnChar '-' tp = [v, t, p, f]) :
    extract (some tp) = some ⟨v, t, p, f⟩ := by
  unfold extract
  simp only [if_neg h0]
  rw [hs]

theorem extract_none_of_bad_split (tp : List Char)
    (h : (splitOnChar '-' tp).length ≠ 4) :
    extract (some tp) = none := by
  unfold extract
  by_cases h0 : tp = []
  · simp [h0]
  · simp only [if_neg h0]
    cases hs : splitOnChar '-' tp with
    | nil => rfl
    | cons v l1 =>
      cases l1 with
      | nil => rfl
      | cons t l2 =>
        cases l2 with
        | nil => rfl
        | cons p l3 =>
          cases l3 with
          | nil => rfl
          | cons f l4 =>
            cases l4 with
            | nil => exact absurd (by simp [hs]) h
            | cons x l5 => rfl

theorem extract_split_of_some (tp : List Char) (f : TraceParentFields)
    (h : extract (some tp) = some f) :
    splitOnChar '-' tp =
      [f.version, f.traceId, f.parentSpanId, f.traceFlags] := by
  unfold extract at h
  by_cases h0 : tp = []
  · simp [h0] at h
  · simp only [if_neg h0] at h
    cases hs : splitOnChar '-' tp with
    | nil => rw [hs] at h; exact absurd h (by simp)
    | cons v l1 =>
      cases l1 with
      | nil => rw [hs] at h; exact absurd h (by simp)
      | cons t l2 =>
        cases l2 with
        | nil => rw [hs] at h; exact absurd h (by simp)
        | cons p l3 =>
          cases l3 with
          | nil => rw [hs] at h; exact absurd h (by simp)
          | cons fl l4 =>
            cases l4 with
            | nil =>
              rw [hs] at h
              simp only [Option.some.injEq] at h
              rw [← h]
            | cons x l5 => rw [hs] at h; exact absurd h (by simp)

/-! ## Lemmas about replacement when the pattern does not match -/

theorem literalReplaceFirst_no_occurrence (pat repl : List Char) :
    ∀ s : List Char, occursIn pat s = false →
      literalReplaceFirst pat repl s = s := by
  intro s
  induction s with
  | nil =>
    intro h
    simp only [occursIn] at h
    have hne : pat ≠ [] := by
      intro hp
      rw [hp] at h
      simp at h
    simp [literalReplaceFirst, hne]
  | cons x xs ih =>
    intro h
    simp only [occursIn, Bool.or_eq_false_iff] at h
    simp only [literalReplaceFirst, h.1, Bool.false_eq_true, if_false]
    rw [ih h.2]

theorem regexReplaceFirst_no_search (r : Regex) (repl : List Char) :
    ∀ s : List Char, r.searchIn s = false →
      regexReplaceFirst r repl s = s := by
  intro s
  induction s with
  | nil =>
    intro h
    simp only [Regex.searchIn, Regex.matchesHere, Bool.not_eq_false',
      List.isEmpty_iff] at h
    simp [regexReplaceFirst, h]
  | cons x xs ih =>
    intro h
    simp only [Regex.searchIn, Bool.or_eq_false_iff, Regex.matchesHere,
      Bool.not_eq_false', List.isEmpty_iff] at h
    simp only [regexReplaceFirst, h.1, List.head?_nil]
    rw [ih h.2]

theorem anchoredRegexReplace_no_match (r : Regex) (repl s : List Char)
    (h : r.matchesHere s = false) :
    anchoredRegexReplace r repl s = s := by
  simp only [Regex.matchesHere, Bool.not_eq_false', List.isEmpty_iff] at h
  simp [anchoredRegexReplace, h]

/-! ## Lemmas about the lifecycle state machine -/

/-- Exactly one finalize event has been emitted and any span still
referenced is ended — the stable region of the per-request state
machine. -/
def FinalizedOnce (sys : Sys) : Prop :=
  sys.finalized = 1 ∧ ∀ s, sys.span = some s → s.ended = true

theorem finalizedOnce_step {sys : Sys} (h : FinalizedOnce sys)
    (e : LifecycleEvent) : FinalizedOnce (step sys e) := by
  obtain ⟨h1, h2⟩ := h
  cases e with
  | beforeResponse res =>
    simp only [step, beforeResponseHook]
    cases hsp : sys.span with
    | none => exact ⟨h1, h2⟩
    | some s => simp [h2 s hsp]; exact ⟨h1, h2⟩
  | onError msg =>
    simp only [step, errorHook]
    cases hsp : sys.span with
    | none => exact ⟨h1, h2⟩
    | some s => simp [h2 s hsp]; exact ⟨h1, h2⟩
  | afterResponse =>
    simp only [step, afterResponseHook]
    cases hsp : sys.span with
    | none => exact ⟨h1, h2⟩
    | some s =>
      simp [h2 s hsp]
      exact ⟨h1, fun s' hs' => by simp at hs'⟩

theorem finalizedOnce_run {sys : Sys} (h : FinalizedOnce sys) :
    ∀ evs : List LifecycleEvent, FinalizedOnce (run sys evs) := by
  intro evs
  induction evs generalizing sys with
  | nil => exact h
  | cons e es ih => exact ih (finalizedOnce_step h e)

theorem finalizedOnce_step_of_active {sys : Sys} {s : SpanData}
    (hspan : sys.span = some s) (hend : s.ended = false)
    (hfin : sys.finalized = 0) (e : LifecycleEvent) :
    FinalizedOnce (step sys e) := by
  cases e with
  | beforeResponse res =>
    simp only [step, beforeResponseHook, hspan, hend, Bool.false_eq_true,
      if_false]
    exact ⟨by rw [hfin], fun s' hs' => by
      simp only [Option.some.injEq] at hs'
      rw [← hs']
      rfl⟩
  | onError msg =>
    simp only [step, errorHook, hspan, hend, Bool.false_eq_true, if_false]
    exact ⟨by rw [hfin], fun s' hs' => by
      simp only [Option.some.injEq] at hs'
      rw [← hs']
      rfl⟩
  | afterResponse =>
    simp only [step, afterResponseHook, hspan, hend, Bool.false_eq_true,
      if_false]
    exact ⟨by rw [hfin], fun s' hs' => by simp at hs'⟩

/-! ## Claim theorems -/

/-- Claim C1: for every request whose inbound traceparent header is
accepted by the extractor, the span created on request-start carries
the traceId field of that header; in particular the header
`00-909345e985cb1d64cab2231a9fd2459d-fa583390dc4a57f0-01` yields a
span with traceId `909345e985cb1d64cab2231a9fd2459d`. -/
theorem traceId_propagation :
    (∀ (cfg : OtelConfig) (req : RequestInfo) (sys : Sys)
        (f : TraceParentFields), extract req.traceparent = some f →
      ∃ s, (requestHook cfg req sys).span = some s ∧
        s.traceId = f.traceId) ∧
    (∀ (cfg : OtelConfig) (sys : Sys) (req : RequestInfo),
        req.traceparent = some header0 →
      ∃ s, (requestHook cfg req sys).span = some s ∧
        s.traceId = "909345e985cb1d64cab2231a9fd2459d".data) := by
  constructor
  · intro cfg req sys f h
    unfold requestHook
    rw [h]
    exact ⟨_, rfl, rfl⟩
  · intro cfg sys req h
    unfold requestHook
    rw [h]
    have he : extract (some header0) = some fields0 := by decide
    rw [he]
    exact ⟨_, rfl, rfl⟩

theorem traceId_propagation_witness :
    ∃ s, (requestHook cfg0 req0 initSys).span = some s ∧
      s.traceId = "909345e985cb1d64cab2231a9fd2459d".data :=
  traceId_propagation.2 cfg0 initSys req0 rfl

/-- Claim C2, counterexample: the header `a-b-c-d` splits on `-` into
exactly 4 parts and its second field `b` is not 32 lowercase hex
characters, yet `extract` accepts it — the request hook performs no
length or charset validation on the fields. -/
theorem extract_hex_validation_cex :
    (splitOnChar '-' ['a', '-', 'b', '-', 'c', '-', 'd']).length = 4 ∧
    (splitOnChar '-' ['a', '-', 'b', '-', 'c', '-', 'd'])[1]? =
      some ['b'] ∧
    (['b'] : List Char).length ≠ 32 ∧
    extract (some ['a', '-', 'b', '-', 'c', '-', 'd']) =
      some ⟨['a'], ['b'], ['c'], ['d']⟩ := by
  decide

/-- Claim C2 as amended: for every nonempty header value that splits
on `-` into exactly 4 parts, `extract` returns those four fields with
no further validation of their length or character set; `extract`
returns absent only when the header is missing or empty or when the
part count is not 4. -/
theorem extract_accepts_any_four_parts :
    (∀ tp v t p f : List Char, tp ≠ [] →
       splitOnChar '-' tp = [v, t, p, f] →
       extract (some tp) = some ⟨v, t, p, f⟩) ∧
    (∀ tp : List Char, (splitOnChar '-' tp).length ≠ 4 →
       extract (some tp) = none) ∧
    extract none = none ∧
    extract (some []) = none := by
  exact ⟨extract_some_of_split, extract_none_of_bad_split, rfl, rfl⟩

theorem extract_accepts_any_four_parts_witness :
    extract (some ['a', '-', 'b', '-', 'c', '-', 'd']) =
      some ⟨['a'], ['b'], ['c'], ['d']⟩ :=
  extract_accepts_any_four_parts.1 _ ['a'] ['b'] ['c'] ['d']
    (by decide) (by decide)

/-- Claim C4: a missing traceparent header, or one that does not
split on `-` into exactly 4 parts, makes `extract` return absent
without raising; then the request hook leaves the request state
untouched (no span is created), and every subsequent lifecycle
callback is a no-op on a request whose context holds no span. -/
theorem invalid_header_no_span :
    extract none = none ∧
    (∀ tp : List Char, (splitOnChar '-' tp).length ≠ 4 →
       extract (some tp) = none) ∧
    (∀ (cfg : OtelConfig) (req : RequestInfo) (sys : Sys),
       extract req.traceparent = none → requestHook cfg req sys = sys) ∧
    (∀ sys : Sys, sys.span = none → ∀ e, step sys e = sys) := by
  refine ⟨rfl, extract_none_of_bad_split, ?_, ?_⟩
  · intro cfg req sys h
    unfold requestHook
    rw [h]
  · intro sys h e
    cases e with
    | beforeResponse res => simp only [step, beforeResponseHook, h]
    | onError msg => simp only [step, errorHook, h]
    | afterResponse => simp only [step, afterResponseHook, h]

theorem invalid_header_no_span_witness :
    extract (some ['a', '-', 'b', '-', 'c']) = none ∧
    step initSys LifecycleEvent.afterResponse = initSys :=
  ⟨invalid_header_no_span.2.1 _ (by decide),
   invalid_header_no_span.2.2.2 initSys rfl _⟩

/-- Claim C7: for every header value the extractor accepts, rejoining
the four returned fields with `-` in the order
version-traceId-parentSpanId-traceFlags reproduces the original header
string exactly. -/
theorem extract_roundtrip :
    ∀ (tp : List Char) (f : TraceParentFields),
      extract (some tp) = some f →
      f.version ++ '-' :: f.traceId ++ '-' :: f.parentSpanId ++
        '-' :: f.traceFlags = tp := by
  intro tp f h
  have hs := extract_split_of_some tp f h
  have hj := joinWith_splitOnChar '-' tp
  rw [hs] at hj
  simpa [joinWith] using hj

theorem extract_roundtrip_witness :
    fields0.version ++ '-' :: fields0.traceId ++
      '-' :: fields0.parentSpanId ++ '-' :: fields0.traceFlags =
      header0 :=
  extract_roundtrip header0 fields0 (by decide)

/-- Claim C3: once the request's span is ended, every further
lifecycle callback is a no-op with respect to span state — it emits no
finalize event and either leaves the stored span untouched or (for
cleanup) merely clears the reference; and from a live span with no
finalize event yet, every interleaving of callbacks in which both
on-error and before-response fire emits exactly one finalize event. -/
theorem span_end_idempotent :
    (∀ (sys : Sys) (s : SpanData) (e : LifecycleEvent),
        sys.span = some s → s.ended = true →
      (step sys e).finalized = sys.finalized ∧
        ((step sys e).span = some s ∨ (step sys e).span = none)) ∧
    (∀ (sys : Sys) (s : SpanData) (evs : List LifecycleEvent),
        sys.span = some s → s.ended = false → sys.finalized = 0 →
        (∃ r, LifecycleEvent.beforeResponse r ∈ evs) →
        (∃ m, LifecycleEvent.onError m ∈ evs) →
      (run sys evs).finalized = 1) := by
  constructor
  · intro sys s e hspan hend
    cases e with
    | beforeResponse res => simp [step, beforeResponseHook, hspan, hend]
    | onError msg => simp [step, errorHook, hspan, hend]
    | afterResponse => simp [step, afterResponseHook, hspan, hend]
  · intro sys s evs hspan hend hfin hb he
    cases evs with
    | nil =>
      obtain ⟨r, hr⟩ := hb
      exact absurd hr (List.not_mem_nil _)
    | cons e es =>
      have h1 : FinalizedOnce (step sys e) :=
        finalizedOnce_step_of_active hspan hend hfin e
      exact (finalizedOnce_run h1 es).1

theorem span_end_idempotent_witness :
    (run sysA
      [LifecycleEvent.onError "boom".data,
       LifecycleEvent.beforeResponse res200,
       LifecycleEvent.afterResponse]).finalized = 1 :=
  span_end_idempotent.2 sysA spanA _ rfl rfl rfl
    ⟨res200, List.mem_cons_of_mem _ (List.mem_cons_self _ _)⟩
    ⟨"boom".data, List.mem_cons_self _ _⟩

/-- Claim C5: on before-response with a live span the hook appends the
three response attributes, sets status ERROR with message
`HTTP <code>` exactly when the status code is ≥ 400 and OK otherwise,
and ends the span (one finalize event); with no span or an
already-ended span the hook is a no-op. -/
theorem before_response_behaviour :
    (∀ (res : ResponseInfo) (sys : Sys) (s : SpanData),
        sys.span = some s → s.ended = false →
      ∃ s2, (beforeResponseHook res sys).span = some s2 ∧
        s2.attrs = s.attrs ++ responseAttrs res ∧
        (400 ≤ res.statusCode →
          s2.status =
            .error ("HTTP ".data ++ (Nat.repr res.statusCode).data)) ∧
        (res.statusCode < 400 → s2.status = .ok) ∧
        s2.ended = true ∧
        (beforeResponseHook res sys).finalized = sys.finalized + 1) ∧
    (∀ (res : ResponseInfo) (sys : Sys), sys.span = none →
       beforeResponseHook res sys = sys) ∧
    (∀ (res : ResponseInfo) (sys : Sys) (s : SpanData),
       sys.span = some s → s.ended = true →
       beforeResponseHook res sys = sys) := by
  refine ⟨?_, ?_, ?_⟩
  · intro res sys s hspan hend
    simp only [beforeResponseHook, hspan, hend, Bool.false_eq_true,
      if_false]
    by_cases h4 : 400 ≤ res.statusCode
    · have hsc : effectiveStatusCode res.statusCode = res.statusCode := by
        unfold effectiveStatusCode
        rw [if_neg (by omega)]
      rw [hsc, if_pos h4]
      exact ⟨_, rfl, rfl, fun _ => rfl,
        fun hlt => absurd h4 (Nat.not_le.mpr hlt), rfl, trivial⟩
    · have hsc : effectiveStatusCode res.statusCode < 400 := by
        unfold effectiveStatusCode
        split <;> omega
      rw [if_neg (by omega)]
      exact ⟨_, rfl, rfl, fun hge => absurd hge h4, fun _ => rfl,
        rfl, trivial⟩
  · intro res sys h
    simp only [beforeResponseHook, h]
  · intro res sys s hspan hend
    simp only [beforeResponseHook, hspan, hend, if_true]

theorem before_response_behaviour_witness :
    (beforeResponseHook res500 sysA).finalized = 1 := by
  obtain ⟨s2, _, _, _, _, _, hfin⟩ :=
    before_response_behaviour.1 res500 sysA spanA rfl rfl
  exact hfin

/-- Claim C6: after-response always clears the request-scoped span
reference, and it ends the span (one more finalize event) exactly when
the span was still live; when the span was already ended, or when no
span exists, no finalize event is emitted. -/
theorem after_response_cleanup :
    ∀ sys : Sys,
      (afterResponseHook sys).span = none ∧
      (∀ s, sys.span = some s → s.ended = false →
        (afterResponseHook sys).finalized = sys.finalized + 1) ∧
      (∀ s, sys.span = some s → s.ended = true →
        (afterResponseHook sys).finalized = sys.finalized) ∧
      (sys.span = none → afterResponseHook sys = sys) := by
  intro sys
  cases hsp : sys.span with
  | none =>
    refine ⟨?_, ?_, ?_, ?_⟩
    · simp [afterResponseHook, hsp]
    · intro s h
      simp at h
    · intro s h
      simp at h
    · intro _
      simp [afterResponseHook, hsp]
  | some s =>
    cases hed : s.ended with
    | true =>
      refine ⟨?_, ?_, ?_, ?_⟩
      · simp [afterResponseHook, hsp, hed]
      · intro s' hs' hend'
        injection hs' with h
        subst h
        simp [hed] at hend'
      · intro s' hs' hend'
        simp [afterResponseHook, hsp, hed]
      · intro h
        simp at h
    | false =>
      refine ⟨?_, ?_, ?_, ?_⟩
      · simp [afterResponseHook, hsp, hed]
      · intro s' hs' hend'
        simp [afterResponseHook, hsp, hed]
      · intro s' hs' hend'
        injection hs' with h
        subst h
        simp [hed] at hend'
      · intro h
        simp at h

theorem after_response_cleanup_witness :
    (afterResponseHook sysA).span = none ∧
    (afterResponseHook sysA).finalized = 1 := by
  obtain ⟨h1, h2, _, _⟩ := after_response_cleanup sysA
  exact ⟨h1, h2 spanA rfl rfl⟩

/-- Claim C8: the configuration classifies a pattern string as a
regular expression exactly when it begins with `^` or contains at
least one of the metacharacters `. * + ? ^ $ { } ( ) | [ ] \`. -/
theorem pattern_classification :
    ∀ p : List Char, isRegexPattern p = true ↔
      p.head? = some '^' ∨ ∃ c ∈ p, c ∈ regexMetaChars := by
  intro p
  simp [isRegexPattern, List.any_eq_true]

theorem pattern_classification_witness :
    isRegexPattern ['^', '/', 'x'] = true :=
  (pattern_classification ['^', '/', 'x']).mpr (Or.inl rfl)

/-- Claim C9: `normalizePath` returns every path unchanged when no
rule is configured or when the configured pattern does not match the
path; the pattern string `^/(en|de|fr)/` is classified as a regex, and
with replacement `/:locale/` the paths `/en/api/hash`, `/de/api/hash`
and `/fr/api/hash` normalize to `/:locale/api/hash` while
`/es/api/hash` is returned unchanged. -/
theorem normalize_path_behaviour :
    (∀ (cfg : OtelConfig) (path : List Char),
       cfg.pathReplacePattern = none → normalizePath cfg path = path) ∧
    (∀ (pat : PathPattern) (repl path : List Char),
       patternMatchesPath pat path = false →
       normalizePath ⟨some pat, some repl⟩ path = path) ∧
    isRegexPattern "^/(en|de|fr)/".data = true ∧
    normalizePath localeCfg "/en/api/hash".data = "/:locale/api/hash".data ∧
    normalizePath localeCfg "/de/api/hash".data = "/:locale/api/hash".data ∧
    normalizePath localeCfg "/fr/api/hash".data = "/:locale/api/hash".data ∧
    normalizePath localeCfg "/es/api/hash".data = "/es/api/hash".data := by
  refine ⟨?_, ?_, by decide, by decide, by decide, by decide, by decide⟩
  · intro cfg path h
    unfold normalizePath
    rw [h]
    simp [patternFalsy]
  · intro pat repl path h
    unfold normalizePath
    cases repl with
    | nil => simp [replacementFalsy]
    | cons rc rrest =>
      cases pat with
      | regex anchored r =>
        cases anchored with
        | true =>
          simp only [patternFalsy, replacementFalsy, Bool.or_false]
          simp only [patternMatchesPath] at h
          exact anchoredRegexReplace_no_match r (rc :: rrest) path h
        | false =>
          simp only [patternFalsy, replacementFalsy, Bool.or_false]
          simp only [patternMatchesPath] at h
          exact regexReplaceFirst_no_search r (rc :: rrest) path h
      | literal lp =>
        cases lp with
        | nil => simp [patternFalsy]
        | cons c cs =>
          simp only [patternFalsy, replacementFalsy, Bool.or_false]
          simp only [patternMatchesPath] at h
          exact literalReplaceFirst_no_occurrence (c :: cs) (rc :: rrest)
            path h

theorem normalize_path_behaviour_witness :
    normalizePath
      { pathReplacePattern := some (.literal ['x'])
        pathReplaceReplacement := some ['y'] } ['a', 'b'] = ['a', 'b'] :=
  normalize_path_behaviour.2.1 (.literal ['x']) ['y'] ['a', 'b'] (by decide)

/-- Claim C10: a configured rule whose replacement string is empty is
silently disabled — the falsy-replacement guard makes `normalizePath`
return every path unchanged, exactly as when no rule is configured. -/
theorem empty_replacement_disables :
    ∀ (cfg : OtelConfig) (path : List Char),
      cfg.pathReplaceReplacement = some [] →
      normalizePath cfg path = path := by
  intro cfg path h
  unfold normalizePath
  rw [h]
  simp [replacementFalsy]

theorem empty_replacement_disables_witness :
    normalizePath
      { pathReplacePattern := some (.literal ['e', 'n'])
        pathReplaceReplacement := some [] } ['/', 'e', 'n'] =
      ['/', 'e', 'n'] :=
  empty_replacement_disables _ ['/', 'e', 'n'] rfl

end Otel
